import Mathlib

/-!
Verification of the Earnings Volatility Calculator core
(`src/calculator.py`) against its natural-language specification.

The Python source is shallowly embedded: pure numeric code becomes
functions over `ℚ` (IEEE NaN is modelled by `Option`, with `none` for an
undefined value), Python dictionaries of heterogeneous values become
association lists over an inductive `PyVal` type, stateful operations
take and return explicit state, and `random.choice` takes an explicit
pick index.
-/

namespace EarningsCalc

/-- The recommendation decision rule of
`EnhancedEarningsScanner.analyze_stock` (calculator.py lines 820-829):
`avb = od['avg_volume']`, `ivcheck = od['iv30_rv30'] >= 1.25`,
`slopecheck = od['term_slope'] <= -0.00406`; `Recommended` when all three
hold, `Consider` when the slope check holds together with exactly one of
the other two, `Avoid` otherwise.  Thresholds are the exact decimals
`1.25 = 5/4` and `0.00406 = 203/50000`. -/
def score (avb : Bool) (ivr slope : ℚ) : String :=
  if avb = true ∧ (5 / 4 : ℚ) ≤ ivr ∧ slope ≤ -(203 / 50000 : ℚ) then "Recommended"
  else if slope ≤ -(203 / 50000 : ℚ) ∧
      ((avb = true ∧ ¬ ((5 / 4 : ℚ) ≤ ivr)) ∨ ((5 / 4 : ℚ) ≤ ivr ∧ avb = false)) then "Consider"
  else "Avoid"

/-- The IV30/RV30 ratio computation of `OptionsAnalyzer.compute_recommendation`
(calculator.py lines 424-427): a realized volatility of zero yields the
sentinel `9999` instead of a division; `none` models a NaN 30-day IV. -/
def iv30_rv30_calc (iv30 : Option ℚ) (hv : ℚ) : Option ℚ :=
  if hv = 0 then some 9999 else iv30.map (fun x => x / hv)

/-- The term-structure slope computation of
`OptionsAnalyzer.compute_recommendation` (calculator.py lines 415-420):
an earliest expiry exactly 45 days out gives slope `0`; otherwise the
chord slope between the earliest expiry and the 45-day point, with the
denominator guard `dden = (45-d0) if (45-d0)!=0 else 1`.  The spline
returns `Option ℚ` (`none` models NaN), which propagates. -/
def term_slope_calc (spline : ℚ → Option ℚ) (d0 : ℚ) : Option ℚ :=
  if d0 = 45 then some 0
  else
    match spline 45, spline d0 with
    | some a, some b => some ((a - b) / (if 45 - d0 ≠ 0 then 45 - d0 else 1))
    | _, _ => none

/-- State of `ProxyManager` (calculator.py lines 55-199): each proxy dict
`{'http': s, 'https': s}` is determined by its endpoint string `s`. -/
structure ProxyState where
  proxies : List String
  current_proxy : Option String
  proxy_enabled : Bool
deriving DecidableEq

/-- `ProxyManager.rotate_proxy` (calculator.py lines 192-199).  `pick`
models the index drawn by `random.choice` from the viable list `av`;
the result pairs the returned value with the new manager state. -/
def rotate_proxy (st : ProxyState) (pick : Nat) : Option String × ProxyState :=
  if st.proxy_enabled = false ∨ st.proxies.length ≤ 1 then (none, st)
  else
    match st.proxies.filter (fun p => decide (st.current_proxy ≠ some p)) with
    | [] => (none, st)
    | a :: rest =>
      let chosen := (a :: rest).get ⟨pick % (a :: rest).length, Nat.mod_lt _ (Nat.succ_pos _)⟩
      (some chosen, { st with current_proxy := some chosen })

/-- The whitespace set of Python `str.strip` (ASCII part): space, tab,
newline, carriage return, vertical tab, form feed. -/
def pyIsSpace (c : Char) : Bool :=
  c = ' ' ∨ c = '\t' ∨ c = '\n' ∨ c = '\r' ∨ c = '\x0b' ∨ c = '\x0c'

/-- Python `str.strip`: drop leading and trailing whitespace. -/
def pyStrip (s : String) : String :=
  String.mk (((s.data.dropWhile pyIsSpace).reverse.dropWhile pyIsSpace).reverse)

/-- Python `str.upper` on the modelled character range. -/
def pyUpper (s : String) : String :=
  String.mk (s.data.map Char.toUpper)

/-- Fields of the dict returned by a successful
`OptionsAnalyzer.compute_recommendation` (calculator.py lines 445-458). -/
structure OptRec where
  avg_volume : Bool
  avg_volume_value : ℚ
  iv30_rv30 : ℚ
  term_slope : ℚ
  term_structure : ℚ
  expected_move : String
  underlying_price : ℚ
  historical_volatility : ℚ
  current_iv : Option ℚ
  atr14 : ℚ
  market_cap : ℚ
  volume : ℚ
deriving DecidableEq

/-- Result of `compute_recommendation`: either an `{"error": msg}` dict or
the full result dict. -/
inductive CRRes where
  | err (msg : String)
  | ok (r : OptRec)
deriving DecidableEq

/-- Outcome of the network-dependent body of one attempt of
`compute_recommendation` (everything from `get_ticker` on, calculator.py
lines 361-458): either a result dict or a raised exception. -/
inductive NetStep where
  | succeed (r : OptRec)
  | raised
deriving DecidableEq

/-- The retry loop of `OptionsAnalyzer.compute_recommendation`
(calculator.py lines 356-466): `remaining` attempts are left and `i` is
the current attempt index (the loop is entered with `remaining = 3`,
`i = 0`).  Each attempt first strips and uppercases the symbol and
returns `{"error": "No symbol provided."}` if it is empty, before any
network access; otherwise the network body `net i` runs (counted by the
second component); a raise before the final attempt rotates the proxy
and retries, a raise on the final attempt returns an error dict. -/
def cr_from (symbol : String) (net : Nat → NetStep) : Nat → Nat → CRRes × Nat
  | 0, _ => (.err "Err", 0)
  | r + 1, i =>
    if pyUpper (pyStrip symbol) = "" then (.err "No symbol provided.", 0)
    else
      match net i with
      | .succeed rec => (.ok rec, 1)
      | .raised =>
        if r = 0 then (.err "Err", 1)
        else
          let p := cr_from symbol net r (i + 1)
          (p.1, p.2 + 1)

/-- `OptionsAnalyzer.compute_recommendation` as a whole: three attempts,
starting at attempt index 0.  The second component counts how many
attempts reached the network body. -/
def compute_recommendation (symbol : String) (net : Nat → NetStep) : CRRes × Nat :=
  cr_from symbol net 3 0

/-- The per-symbol record built by `EnhancedEarningsScanner.analyze_stock`
(calculator.py lines 831-864). -/
structure StockRecord where
  ticker : String
  current_price : ℚ
  market_cap : ℚ
  volume : ℚ
  avg_volume : Bool
  avg_volume_value : ℚ
  earnings_time : String
  recommendation : String
  expected_move : String
  atr14 : ℚ
  iv30_rv30 : ℚ
  term_slope : ℚ
  term_structure : ℚ
  historical_volatility : ℚ
  current_iv : Option ℚ
deriving DecidableEq

/-- `EnhancedEarningsScanner.analyze_stock` (calculator.py lines 803-867).
`cp`, `tv`, `hv` are the current price, last-day volume and realized
volatility computed from price history (lines 805-816), `mc` the market
cap fetched at line 834 and `earnTime` the calendar timing tag; `od` is
the `compute_recommendation` result (which never raises).
`externalRaises` models an exception escaping from any of the external
calls inside the `try` block (history download, `yfinance` info lookup),
in which case the `except` clause at line 865 returns `None`. -/
def analyze_stock (ticker : String) (externalRaises : Bool) (cp tv hv mc : ℚ)
    (earnTime : String) (od : CRRes) : Option StockRecord :=
  if externalRaises then none
  else
    match od with
    | .ok r =>
      some { ticker := ticker, current_price := cp, market_cap := mc, volume := tv,
             avg_volume := r.avg_volume, avg_volume_value := r.avg_volume_value,
             earnings_time := earnTime,
             recommendation := score r.avg_volume r.iv30_rv30 r.term_slope,
             expected_move := r.expected_move, atr14 := r.atr14, iv30_rv30 := r.iv30_rv30,
             term_slope := r.term_slope, term_structure := r.term_structure,
             historical_volatility := hv, current_iv := r.current_iv }
    | .err _ =>
      some { ticker := ticker, current_price := cp, market_cap := 0, volume := tv,
             avg_volume := false, avg_volume_value := 0, earnings_time := "Unknown",
             recommendation := "Avoid", expected_move := "N/A", atr14 := 0, iv30_rv30 := 0,
             term_slope := 0, term_structure := 0, historical_volatility := hv,
             current_iv := none }

/-- The collection step of `EnhancedEarningsScanner.scan_earnings_stocks`
(calculator.py lines 782-785): each completed future's value `r` is
appended to the result list when it is not `None`. -/
def collect_results (outs : List (Option StockRecord)) : List StockRecord :=
  outs.filterMap id

/-- Value of a field of a per-symbol result dict, as pickled by
`DataCache`: Python `None`, a number, a string, or a boolean. -/
inductive PyVal where
  | pnone
  | num (q : ℚ)
  | pstr (s : String)
  | pbool (b : Bool)
deriving DecidableEq

/-- Python `==` on the modelled values: numbers compare by value and
`True == 1`, `False == 0`; values of unrelated types are unequal. -/
def pyEq : PyVal → PyVal → Bool
  | .num a, .num b => a == b
  | .num a, .pbool b => a == (if b then 1 else 0)
  | .pbool a, .num b => (if a then (1 : ℚ) else 0) == b
  | .pbool a, .pbool b => a == b
  | .pstr a, .pstr b => a == b
  | .pnone, .pnone => true
  | _, _ => false

/-- The missing-sentinel test of `DataCache.update_missing_data`
(calculator.py line 657): `entry[k]=='N/A' or entry[k] is None or
entry[k]==0`, with Python equality (under which `False == 0`). -/
def isMissing (v : PyVal) : Bool :=
  pyEq v (.pstr "N/A") || (v == .pnone) || pyEq v (.num 0)

/-- A pickled per-symbol record: a dict modelled as an association list. -/
abbrev Entry := List (String × PyVal)

/-- One iteration of the field loop of `DataCache.update_missing_data`
(calculator.py lines 656-658): for the incoming pair `kv`, the stored
binding for that key is overwritten exactly when its current value is a
missing sentinel. -/
def applyField (e : Entry) (kv : String × PyVal) : Entry :=
  e.map (fun p => if p.1 = kv.1 ∧ isMissing p.2 = true then (kv.1, kv.2) else p)

/-- The whole field loop of `DataCache.update_missing_data` over the
incoming dict `newData`. -/
def update_entry (e : Entry) (newData : Entry) : Entry :=
  newData.foldl applyField e

/-- `DataCache.update_missing_data` on the cached record list
(calculator.py lines 654-658): every stored record whose `ticker` equals
the incoming record's `ticker` has its sentinel fields backfilled.  (A
record without a `ticker` key would raise `KeyError`, caught at line
663, leaving the cache unchanged; such records are left unchanged
here.) -/
def update_missing_data (data : List Entry) (newData : Entry) : List Entry :=
  data.map (fun e =>
    match List.lookup "ticker" e, List.lookup "ticker" newData with
    | some a, some b => if pyEq a b = true then update_entry e newData else e
    | _, _ => e)

/-- The string hashed by `DataCache._get_cache_key` (calculator.py lines
586-589): `f"{date}_{'_'.join(sorted(tks))}"`.  `hashlib.md5` is a
deterministic function of this string, so key equality is decided by
this string. -/
def cache_key (date : String) (tks : List String) : String :=
  date ++ "_" ++ String.intercalate "_" (List.insertionSort (fun a b : String => a ≤ b) tks)

/-- A cache entry as pickled by `DataCache.save_data` (calculator.py
lines 620-626); the timestamp is in whole days. -/
structure CacheEntryM where
  timestampDays : Int
  date : String
  tickers : List String
  data : List Entry
  missing_data : List Entry
deriving DecidableEq

/-- A persisted cache file: either unpicklable (corrupt) or a good entry. -/
inductive CacheFile where
  | corrupt
  | good (c : CacheEntryM)
deriving DecidableEq

/-- `DataCache.get_data` (calculator.py lines 632-646).  The file system
is a map from cache path to file; the result pairs the returned
`(data, missing_data)` with the file system after the call (an entry at
least 7 days old is removed; an unreadable file is **left in place**,
lines 644-646). -/
def get_data (fs : String → Option CacheFile) (nowDays : Int) (date : String)
    (tks : List String) :
    (Option (List Entry) × List Entry) × (String → Option CacheFile) :=
  match fs (cache_key date tks) with
  | none => ((none, []), fs)
  | some .corrupt => ((none, []), fs)
  | some (.good c) =>
    if 7 ≤ nowDays - c.timestampDays then
      ((none, []), fun k => if k = cache_key date tks then none else fs k)
    else ((some c.data, c.missing_data), fs)

/-- C1: the recommendation computed from an error-free options result is
`Recommended` exactly when the volume check passes, the IV30/RV30 ratio
is at least `1.25` and the term slope is at most `-0.00406`; `Consider`
exactly when the slope condition holds together with exactly one of the
volume check and the ratio check; `Avoid` in every other case; and the
four concrete examples of the specification evaluate as stated. -/
theorem score_rule :
    (∀ (avb : Bool) (ivr slope : ℚ),
      (score avb ivr slope = "Recommended" ↔
        (avb = true ∧ (5 / 4 : ℚ) ≤ ivr ∧ slope ≤ -(203 / 50000 : ℚ))) ∧
      (score avb ivr slope = "Consider" ↔
        (slope ≤ -(203 / 50000 : ℚ) ∧
          ((avb = true ∧ ¬ ((5 / 4 : ℚ) ≤ ivr)) ∨ ((5 / 4 : ℚ) ≤ ivr ∧ avb = false)))) ∧
      (score avb ivr slope = "Avoid" ↔
        (¬ (avb = true ∧ (5 / 4 : ℚ) ≤ ivr ∧ slope ≤ -(203 / 50000 : ℚ)) ∧
         ¬ (slope ≤ -(203 / 50000 : ℚ) ∧
            ((avb = true ∧ ¬ ((5 / 4 : ℚ) ≤ ivr)) ∨ ((5 / 4 : ℚ) ≤ ivr ∧ avb = false)))))) ∧
    score true (13 / 10) (-(5 / 1000)) = "Recommended" ∧
    score false (13 / 10) (-(5 / 1000)) = "Consider" ∧
    score true (13 / 10) (-(2 / 1000)) = "Avoid" ∧
    score false (1 / 2) (1 / 100) = "Avoid" := by
  refine ⟨?_, ?_, ?_, ?_, ?_⟩
  case refine_2 =>
    rw [score, if_pos ⟨rfl, by norm_num, by norm_num⟩]
  case refine_3 =>
    rw [score, if_neg (by simp), if_pos ⟨by norm_num, Or.inr ⟨by norm_num, rfl⟩⟩]
  case refine_4 =>
    rw [score, if_neg (fun h => absurd h.2.2 (by norm_num)),
      if_neg (fun h => absurd h.1 (by norm_num))]
  case refine_5 =>
    rw [score, if_neg (by simp), if_neg (fun h => absurd h.1 (by norm_num))]
  intro avb ivr slope
  unfold score
  split_ifs with h1 h2
  · refine ⟨⟨fun _ => h1, fun _ => rfl⟩, ⟨fun h => absurd h (by decide), ?_⟩,
      ⟨fun h => absurd h (by decide), fun h => absurd h1 h.1⟩⟩
    rintro ⟨-, h | h⟩
    · exact absurd h1.2.1 h.2
    · rw [h.2] at h1; exact absurd h1.1 (by decide)
  · exact ⟨⟨fun h => absurd h (by decide), fun h => absurd h h1⟩,
      ⟨fun _ => h2, fun _ => rfl⟩,
      ⟨fun h => absurd h (by decide), fun h => absurd h2 h.2⟩⟩
  · exact ⟨⟨fun h => absurd h (by decide), fun h => absurd h h1⟩,
      ⟨fun h => absurd h (by decide), fun h => absurd h h2⟩,
      ⟨fun _ => ⟨h1, h2⟩, fun _ => rfl⟩⟩

/-- C5: whenever the realized volatility is zero, the IV30/RV30 ratio is
the sentinel `9999` (no division is attempted), and whenever the
earliest available expiry is exactly 45 days out, the term slope is `0`,
independently of the spline. -/
theorem zero_rv_sentinel_and_flat_slope :
    (∀ iv30 : Option ℚ, iv30_rv30_calc iv30 0 = some 9999) ∧
    (∀ spline : ℚ → Option ℚ, term_slope_calc spline 45 = some 0) := by
  constructor
  · intro iv30; simp [iv30_rv30_calc]
  · intro spline; simp [term_slope_calc]

/-- C9: `rotate_proxy` returns no rotation when proxying is disabled, or
the pool has at most one entry, or only the current endpoint remains
viable; a successful rotation returns a pool member different from the
current endpoint and records it as current; and whenever the pool holds
two distinct endpoints and proxying is enabled, rotation succeeds with
an endpoint different from the current one. -/
theorem rotate_proxy_rule :
    ∀ (st : ProxyState) (pick : Nat),
      (st.proxy_enabled = false → rotate_proxy st pick = (none, st)) ∧
      (st.proxies.length ≤ 1 → rotate_proxy st pick = (none, st)) ∧
      ((∀ p ∈ st.proxies, st.current_proxy = some p) → rotate_proxy st pick = (none, st)) ∧
      (∀ p st', rotate_proxy st pick = (some p, st') →
        p ∈ st.proxies ∧ st.current_proxy ≠ some p ∧
          st' = { st with current_proxy := some p }) ∧
      (st.proxy_enabled = true → (∃ a ∈ st.proxies, ∃ b ∈ st.proxies, a ≠ b) →
        ∃ p st', rotate_proxy st pick = (some p, st') ∧ st.current_proxy ≠ some p) := by
  intro st pick
  refine ⟨fun hd => ?_, fun hl => ?_, fun hall => ?_, fun p st' h => ?_, fun hen hex => ?_⟩
  · rw [rotate_proxy, if_pos (Or.inl hd)]
  · rw [rotate_proxy, if_pos (Or.inr hl)]
  · rw [rotate_proxy]
    split_ifs with hc
    · rfl
    · have hnil : st.proxies.filter (fun p => decide (st.current_proxy ≠ some p)) = [] := by
        rw [List.filter_eq_nil_iff]
        intro p hp
        simp only [decide_eq_true_eq]
        exact not_not_intro (hall p hp)
      rw [hnil]
  · rw [rotate_proxy] at h
    split_ifs at h with hc
    · exact absurd h (by simp)
    · revert h
      cases hav : st.proxies.filter (fun p => decide (st.current_proxy ≠ some p)) with
      | nil => intro h; exact absurd h (by simp)
      | cons a rest =>
        intro h
        have hmem : (a :: rest).get
            ⟨pick % (a :: rest).length, Nat.mod_lt _ (Nat.succ_pos _)⟩ ∈
              st.proxies.filter (fun p => decide (st.current_proxy ≠ some p)) := by
          rw [hav]
          exact List.get_mem _ _ _
        have hmem' := List.mem_filter.mp hmem
        have hne : st.current_proxy ≠ some ((a :: rest).get
            ⟨pick % (a :: rest).length, Nat.mod_lt _ (Nat.succ_pos _)⟩) :=
          of_decide_eq_true hmem'.2
        simp only [Prod.mk.injEq, Option.some.injEq] at h
        obtain ⟨hp, hst⟩ := h
        subst hp
        exact ⟨hmem'.1, hne, hst.symm⟩
  · obtain ⟨a, ha, b, hb, hab⟩ := hex
    have hlen : ¬ st.proxies.length ≤ 1 := by
      intro hle
      cases hpx : st.proxies with
      | nil => rw [hpx] at ha; exact absurd ha (List.not_mem_nil a)
      | cons x tl =>
        cases htl : tl with
        | nil =>
          rw [hpx, htl] at ha hb
          have hax : a = x := by simpa using ha
          have hbx : b = x := by simpa using hb
          exact hab (hax.trans hbx.symm)
        | cons y tl2 => rw [hpx, htl] at hle; simp at hle
    have hcond : ¬ (st.proxy_enabled = false ∨ st.proxies.length ≤ 1) := by
      rintro (h | h)
      · rw [hen] at h; exact absurd h (by decide)
      · exact hlen h
    have hav : st.proxies.filter (fun p => decide (st.current_proxy ≠ some p)) ≠ [] := by
      intro hnil
      rw [List.filter_eq_nil_iff] at hnil
      have hca : st.current_proxy = some a := by
        have := hnil a ha
        simpa using this
      have hcb : st.current_proxy = some b := by
        have := hnil b hb
        simpa using this
      rw [hca] at hcb
      exact hab (Option.some.inj hcb)
    rw [rotate_proxy, if_neg hcond]
    revert hav
    cases hfil : st.proxies.filter (fun p => decide (st.current_proxy ≠ some p)) with
    | nil => intro hav; exact absurd rfl hav
    | cons a0 rest =>
      intro _
      have hmem : (a0 :: rest).get
          ⟨pick % (a0 :: rest).length, Nat.mod_lt _ (Nat.succ_pos _)⟩ ∈
            st.proxies.filter (fun p => decide (st.current_proxy ≠ some p)) := by
        rw [hfil]
        exact List.get_mem _ _ _
      have hmem' := List.mem_filter.mp hmem
      exact ⟨_, _, rfl, of_decide_eq_true hmem'.2⟩

/-- Witness for `rotate_proxy_rule` at a concrete two-endpoint pool. -/
theorem rotate_proxy_rule_witness :
    ∃ p st', rotate_proxy ⟨["a", "b"], some "a", true⟩ 0 = (some p, st') ∧
      (some "a" : Option String) ≠ some p :=
  (rotate_proxy_rule ⟨["a", "b"], some "a", true⟩ 0).2.2.2.2 rfl
    ⟨"a", by decide, "b", by decide, by decide⟩

/-- C10: for a symbol that is empty or all whitespace,
`compute_recommendation` returns the `{"error": "No symbol provided."}`
dict from the first attempt, with zero network-body executions (hence no
fetch and no retry), whatever the network would have done. -/
theorem blank_symbol_short_circuit :
    ∀ (symbol : String) (net : Nat → NetStep),
      (∀ c ∈ symbol.data, pyIsSpace c = true) →
      compute_recommendation symbol net = (.err "No symbol provided.", 0) := by
  intro symbol net hws
  have hdrop : symbol.data.dropWhile pyIsSpace = [] :=
    List.dropWhile_eq_nil_iff.mpr hws
  have hstrip : pyStrip symbol = "" := by
    rw [pyStrip, hdrop]
    rfl
  have hupper : pyUpper (pyStrip symbol) = "" := by
    rw [hstrip]
    rfl
  rw [compute_recommendation, cr_from, if_pos hupper]

/-- Witness for `blank_symbol_short_circuit` on the two-space symbol. -/
theorem blank_symbol_short_circuit_witness :
    compute_recommendation "  " (fun _ => NetStep.raised) =
      (.err "No symbol provided.", 0) :=
  blank_symbol_short_circuit "  " (fun _ => NetStep.raised) (by decide)

/-- A stored binding whose value is not a missing sentinel survives one
`applyField` step of the backfill loop unchanged. -/
theorem lookup_applyField (kv : String × PyVal) (k : String) (v : PyVal)
    (hv : isMissing v = false) :
    ∀ e : Entry, List.lookup k e = some v → List.lookup k (applyField e kv) = some v := by
  intro e
  induction e with
  | nil => intro h; simp at h
  | cons p rest ih =>
    obtain ⟨pk, pv⟩ := p
    intro h
    rw [List.lookup_cons] at h
    simp only [applyField, List.map_cons]
    cases hpk : k == pk with
    | true =>
      rw [hpk] at h
      have hval : pv = v := Option.some.inj h
      subst hval
      have hcond : ¬ ((pk, pv).1 = kv.1 ∧ isMissing (pk, pv).2 = true) := by
        rintro ⟨-, hm⟩
        rw [hv] at hm
        exact absurd hm (by decide)
      rw [if_neg hcond, List.lookup_cons, hpk]
    | false =>
      rw [hpk] at h
      by_cases hcond : ((pk, pv).1 = kv.1 ∧ isMissing (pk, pv).2 = true)
      · rw [if_pos hcond, List.lookup_cons]
        have hk1 : (k == kv.1) = false := by
          have := hcond.1
          simp only at this
          rw [← this]
          exact hpk
        rw [hk1]
        exact ih h
      · rw [if_neg hcond, List.lookup_cons, hpk]
        exact ih h

/-- A stored binding whose value is not a missing sentinel survives the
whole backfill field loop unchanged. -/
theorem lookup_update_entry (k : String) (v : PyVal) (hv : isMissing v = false) :
    ∀ (newData : Entry) (e : Entry),
      List.lookup k e = some v → List.lookup k (update_entry e newData) = some v := by
  intro newData
  induction newData with
  | nil => intro e h; simpa [update_entry] using h
  | cons kv rest ih =>
    intro e h
    rw [update_entry, List.foldl_cons]
    exact ih (applyField e kv) (lookup_applyField kv k v hv e h)

/-- C3: `update_missing_data` leaves every stored field whose value is not
a missing sentinel (`'N/A'`, `None`, or `== 0` under Python equality)
unchanged, for every stored record and every incoming update; in
particular a stored `current_iv = 0.32` (`0.32 = 8/25 = mkRat 8 25`)
survives an incoming `current_iv = None`. -/
theorem backfill_preserves_populated_fields :
    (∀ (data : List Entry) (newData : Entry) (i : Nat) (k : String) (v : PyVal),
      isMissing v = false →
      (data.get? i).bind (fun e => List.lookup k e) = some v →
      ((update_missing_data data newData).get? i).bind (fun e => List.lookup k e) = some v) ∧
    (mkRat 8 25 : ℚ) = 8 / 25 ∧
    ((update_missing_data [[("ticker", .pstr "AAA"), ("current_iv", .num (mkRat 8 25))]]
        [("ticker", .pstr "AAA"), ("current_iv", .pnone)]).get? 0).bind
      (fun e => List.lookup "current_iv" e) = some (.num (mkRat 8 25)) := by
  have main : ∀ (data : List Entry) (newData : Entry) (i : Nat) (k : String) (v : PyVal),
      isMissing v = false →
      (data.get? i).bind (fun e => List.lookup k e) = some v →
      ((update_missing_data data newData).get? i).bind (fun e => List.lookup k e) = some v := by
    intro data newData i k v hv h
    rw [update_missing_data, List.get?_map]
    revert h
    cases data.get? i with
    | none => intro h; simp at h
    | some e =>
      intro h
      simp only [Option.some_bind'] at h
      simp only [Option.map_some', Option.some_bind']
      cases List.lookup "ticker" e with
      | none => exact h
      | some a =>
        cases List.lookup "ticker" newData with
        | none => exact h
        | some b =>
          show List.lookup k (if pyEq a b = true then update_entry e newData else e) = some v
          by_cases hab : pyEq a b = true
          · rw [if_pos hab]
            exact lookup_update_entry k v hv newData e h
          · rw [if_neg hab]
            exact h
  exact ⟨main, by norm_num [Rat.mkRat_eq_div], by decide⟩

/-- Witness for `backfill_preserves_populated_fields` on a concrete cache:
one stored record with a populated `current_iv` and an incoming update
whose `current_iv` is `None`. -/
theorem backfill_preserves_populated_fields_witness :
    ((update_missing_data [[("ticker", .pstr "AAA"), ("current_iv", .num (mkRat 8 25))]]
        [("ticker", .pstr "BBB"), ("current_iv", .pnone)]).get? 0).bind
      (fun e => List.lookup "current_iv" e) = some (.num (mkRat 8 25)) :=
  backfill_preserves_populated_fields.1 _ _ 0 "current_iv" _ (by decide) (by decide)

/-- C2 counterexample: a per-symbol analysis that raises (modelled by
`externalRaises = true`) makes `analyze_stock` return `None`, and the
scan's collection step then emits no record at all for that symbol — the
symbol is absent from the returned result list, contradicting the claim
that a failed analysis never drops the symbol. -/
theorem failed_analysis_drops_symbol :
    analyze_stock "AAA" true 1 1 1 0 "Unknown" (.err "boom") = none ∧
    collect_results [analyze_stock "AAA" true 1 1 1 0 "Unknown" (.err "boom")] = [] :=
  ⟨rfl, rfl⟩

/-- C2 (amended): when the options computation returns an error dict and
no exception escapes the analysis body, `analyze_stock` still returns a
record, with recommendation `Avoid` and the historical fields (price,
volume, realized volatility) taken from price history alone; and every
non-`None` analysis output is present in the scan's collected result
list.  (When the analysis body raises, the symbol is dropped, as
`failed_analysis_drops_symbol` shows.) -/
theorem options_error_degrades_to_avoid :
    (∀ (ticker : String) (cp tv hv mc : ℚ) (earnTime msg : String),
      analyze_stock ticker false cp tv hv mc earnTime (.err msg) =
        some { ticker := ticker, current_price := cp, market_cap := 0, volume := tv,
               avg_volume := false, avg_volume_value := 0, earnings_time := "Unknown",
               recommendation := "Avoid", expected_move := "N/A", atr14 := 0,
               iv30_rv30 := 0, term_slope := 0, term_structure := 0,
               historical_volatility := hv, current_iv := none }) ∧
    (∀ (outs : List (Option StockRecord)) (r : StockRecord),
      some r ∈ outs → r ∈ collect_results outs) := by
  constructor
  · intro ticker cp tv hv mc earnTime msg
    rfl
  · intro outs r hr
    exact List.mem_filterMap.mpr ⟨some r, hr, rfl⟩

/-- Witness for `options_error_degrades_to_avoid`: the degraded record of
a failed options computation is collected into the scan result list. -/
theorem options_error_degrades_to_avoid_witness :
    ({ ticker := "AAA", current_price := 1, market_cap := 0, volume := 1,
       avg_volume := false, avg_volume_value := 0, earnings_time := "Unknown",
       recommendation := "Avoid", expected_move := "N/A", atr14 := 0,
       iv30_rv30 := 0, term_slope := 0, term_structure := 0,
       historical_volatility := 1, current_iv := none } : StockRecord) ∈
      collect_results [analyze_stock "AAA" false 1 1 1 0 "During Market" (.err "boom")] :=
  options_error_degrades_to_avoid.2 _ _
    (by rw [(options_error_degrades_to_avoid.1 "AAA" 1 1 1 0 "During Market" "boom")]
        exact List.mem_singleton.mpr rfl)

/-- C7 counterexample: `["AAA"]` and `["AAA", "AAA"]` contain the same
set of symbols (equal after sorting and deduplicating), yet
`_get_cache_key` hashes different strings for them, because the source
sorts but does not deduplicate: the joined strings are
`2024-03-01_AAA` and `2024-03-01_AAA_AAA`. -/
theorem cache_key_counts_duplicates :
    (["AAA"] : List String).dedup = (["AAA", "AAA"] : List String).dedup ∧
    cache_key "2024-03-01" ["AAA"] ≠ cache_key "2024-03-01" ["AAA", "AAA"] := by
  constructor
  · decide
  · have h2 : List.insertionSort (fun a b : String => a ≤ b) ["AAA", "AAA"] =
        ["AAA", "AAA"] := by
      simp only [List.insertionSort, List.orderedInsert]
      split_ifs <;> rfl
    rw [cache_key, cache_key, h2]
    decide

/-- C7 (amended): the cache key string is invariant under reordering of
the symbol list — any two lists that are permutations of each other hash
the same string — but duplicated entries are retained by the sort and
change the key, as `cache_key_counts_duplicates` shows. -/
theorem cache_key_permutation_invariant :
    ∀ (date : String) (l1 l2 : List String), l1.Perm l2 →
      cache_key date l1 = cache_key date l2 := by
  intro date l1 l2 hperm
  have hsort : List.insertionSort (fun a b : String => a ≤ b) l1 =
      List.insertionSort (fun a b : String => a ≤ b) l2 :=
    List.eq_of_perm_of_sorted
      ((List.perm_insertionSort _ l1).trans
        (hperm.trans (List.perm_insertionSort _ l2).symm))
      (List.sorted_insertionSort _ l1) (List.sorted_insertionSort _ l2)
  rw [cache_key, cache_key, hsort]

/-- Witness for `cache_key_permutation_invariant` on a two-element
reordering. -/
theorem cache_key_permutation_invariant_witness :
    cache_key "2024-03-01" ["BBB", "AAA"] = cache_key "2024-03-01" ["AAA", "BBB"] :=
  cache_key_permutation_invariant "2024-03-01" ["BBB", "AAA"] ["AAA", "BBB"] (by decide)

/-- C8 counterexample: looking up a cache key whose persisted file is
corrupt returns a cache miss `(None, [])` but leaves the corrupt file in
place — `get_data` does not delete it, contradicting the claim of
self-healing by deletion (only `clear_expired` deletes unreadable
files). -/
theorem corrupt_cache_file_not_deleted :
    (get_data
        (fun k => if k = cache_key "2024-03-01" ["AAA"] then some CacheFile.corrupt else none)
        0 "2024-03-01" ["AAA"]).1 = (none, []) ∧
    (get_data
        (fun k => if k = cache_key "2024-03-01" ["AAA"] then some CacheFile.corrupt else none)
        0 "2024-03-01" ["AAA"]).2 (cache_key "2024-03-01" ["AAA"]) =
      some CacheFile.corrupt := by
  constructor
  · rw [get_data]
    rw [if_pos rfl]
  · rw [get_data]
    rw [if_pos rfl]
    rfl

/-- C8 (amended): a lookup whose persisted file is unreadable is treated
as a cache miss, and the file system is returned unchanged (the corrupt
file is not deleted). -/
theorem corrupt_cache_is_miss :
    ∀ (fs : String → Option CacheFile) (nowDays : Int) (date : String) (tks : List String),
      fs (cache_key date tks) = some CacheFile.corrupt →
      get_data fs nowDays date tks = ((none, []), fs) := by
  intro fs nowDays date tks h
  rw [get_data, h]

/-- Witness for `corrupt_cache_is_miss` on a concrete corrupt store. -/
theorem corrupt_cache_is_miss_witness :
    get_data
        (fun k => if k = cache_key "2024-03-01" ["AAA"] then some CacheFile.corrupt else none)
        0 "2024-03-01" ["AAA"] =
      ((none, []),
        fun k => if k = cache_key "2024-03-01" ["AAA"] then some CacheFile.corrupt else none) :=
  corrupt_cache_is_miss _ 0 "2024-03-01" ["AAA"] (if_pos rfl)

/-- The loop of `OptionsAnalyzer.filter_dates` (calculator.py lines
270-273): scan the (sorted) dates and return the prefix up to and
including the first date at or beyond the cutoff; `none` when no date
reaches the cutoff, so `arr` stays empty. -/
def takeToCutoff (cutoff : Int) : List Int → Option (List Int)
  | [] => none
  | d :: ds =>
    if cutoff ≤ d then some [d] else (takeToCutoff cutoff ds).map (fun l => d :: l)

/-- `OptionsAnalyzer.filter_dates` (calculator.py lines 265-278), with
dates as day numbers (the `YYYY-MM-DD` string form of a date is in
bijection with its day number); the cutoff is `today + 45` days and
`none` models the raised `ValueError`.  When the prefix is found, its
first element is dropped when it equals today. -/
def filter_dates (today : Int) (dates : List Int) : Option (List Int) :=
  match takeToCutoff (today + 45)
      (List.insertionSort (fun a b : Int => a ≤ b) dates) with
  | none => none
  | some arr => if arr.head? = some today then some arr.tail else some arr

/-- The result described by the specification sentence for C6: fail
exactly when no listed date is at least 45 days out; otherwise take the
sorted prefix of all dates strictly inside the 45-day horizon plus the
first date at or beyond it, dropping the first element of that prefix
when it equals today. -/
def filter_dates_spec (today : Int) (dates : List Int) : Option (List Int) :=
  if ∀ d ∈ dates, d < today + 45 then none
  else
    let s := List.insertionSort (fun a b : Int => a ≤ b) dates
    let arr := s.take ((s.takeWhile (fun d => decide (d < today + 45))).length + 1)
    if arr.head? = some today then some arr.tail else some arr

/-- `takeToCutoff` fails exactly when every date is strictly below the
cutoff. -/
theorem takeToCutoff_eq_none (cutoff : Int) :
    ∀ l : List Int, takeToCutoff cutoff l = none ↔ ∀ d ∈ l, d < cutoff := by
  intro l
  induction l with
  | nil => simp [takeToCutoff]
  | cons d ds ih =>
    rw [takeToCutoff]
    split_ifs with h
    · constructor
      · intro hc
        exact absurd hc (by simp)
      · intro hall
        exact absurd (hall d (List.mem_cons_self d ds)) (not_lt.mpr h)
    · constructor
      · intro hc x hx
        rcases List.mem_cons.mp hx with rfl | hx2
        · exact not_le.mp h
        · exact (ih.mp (Option.map_eq_none'.mp hc)) x hx2
      · intro hall
        rw [Option.map_eq_none']
        exact ih.mpr fun x hx => hall x (List.mem_cons_of_mem d hx)

/-- When some date reaches the cutoff, `takeToCutoff` returns the prefix
of all dates strictly below the cutoff plus the first date at or beyond
it. -/
theorem takeToCutoff_eq_some (cutoff : Int) :
    ∀ l : List Int, (¬ ∀ d ∈ l, d < cutoff) →
      takeToCutoff cutoff l =
        some (l.take ((l.takeWhile (fun d => decide (d < cutoff))).length + 1)) := by
  intro l
  induction l with
  | nil => intro h; exact absurd (by simp) h
  | cons d ds ih =>
    intro h
    rw [takeToCutoff]
    split_ifs with hd
    · rw [List.takeWhile_cons_of_neg (by simpa using not_lt.mpr hd)]
      rfl
    · have hd' : d < cutoff := not_le.mp hd
      have hds : ¬ ∀ x ∈ ds, x < cutoff := by
        intro hall
        apply h
        intro x hx
        rcases List.mem_cons.mp hx with rfl | hx2
        · exact hd'
        · exact hall x hx2
      rw [ih hds, List.takeWhile_cons_of_pos (by simpa using hd')]
      rfl

/-- C6: `filter_dates` agrees with the specified selection on every
input: it fails exactly when no listed date is at least 45 days out, and
otherwise returns the sorted prefix up to and including the first date
at least 45 days out, minus a leading same-day entry. -/
theorem filter_dates_spec_correct :
    ∀ (today : Int) (dates : List Int),
      filter_dates today dates = filter_dates_spec today dates ∧
      (filter_dates today dates = none ↔ ∀ d ∈ dates, d < today + 45) := by
  intro today dates
  have hperm := List.perm_insertionSort (fun a b : Int => a ≤ b) dates
  by_cases hall : ∀ d ∈ dates, d < today + 45
  · have hnone : takeToCutoff (today + 45)
        (List.insertionSort (fun a b : Int => a ≤ b) dates) = none :=
      (takeToCutoff_eq_none _ _).mpr fun d hd => hall d (hperm.mem_iff.mp hd)
    rw [filter_dates, filter_dates_spec, if_pos hall, hnone]
    exact ⟨rfl, iff_of_true rfl hall⟩
  · have hall' : ¬ ∀ d ∈ List.insertionSort (fun a b : Int => a ≤ b) dates,
        d < today + 45 := fun hs => hall fun d hd => hs d (hperm.mem_iff.mpr hd)
    have hsome := takeToCutoff_eq_some (today + 45)
      (List.insertionSort (fun a b : Int => a ≤ b) dates) hall'
    rw [filter_dates, filter_dates_spec, if_neg hall, hsome]
    refine ⟨rfl, ?_⟩
    constructor
    · intro hcontr
      have hnever : ∀ arr : List Int,
          (if arr.head? = some today then some arr.tail else (some arr : Option (List Int)))
            ≠ none := by
        intro arr
        split_ifs <;> simp
      exact absurd hcontr (hnever _)
    · intro h
      exact absurd h hall

/-- Ordering of (day, IV) knots by day, the `argsort` key at
calculator.py line 320. -/
def knotLE (p q : ℚ × ℚ) : Prop := p.1 ≤ q.1

instance : DecidableRel knotLE := fun p q => inferInstanceAs (Decidable (p.1 ≤ q.1))

instance : IsTotal (ℚ × ℚ) knotLE := ⟨fun p q => le_total p.1 q.1⟩

instance : IsTrans (ℚ × ℚ) knotLE := ⟨fun _ _ _ h1 h2 => le_trans h1 h2⟩

/-- Piecewise-linear interpolation over day-sorted knots: the behaviour
of `_call_linear` of `scipy.interpolate.interp1d(kind='linear')`.  The
segment is located as by `searchsorted(..., side='left')` clipped to
`[1, n-1]`: the first knot from index 1 on whose day is at least the
query.  On a degenerate segment (both endpoints share the same day —
reachable, after clipping, only when the least day is duplicated and the
query equals it), `_call_linear` computes `slope = (y_hi - y_lo)/0`
(`±inf` or `0/0`) and then `slope * 0`, which is IEEE NaN; `none` models
that.  On a non-degenerate segment the value lies on the chord between
the endpoint IVs. -/
def interpLin : List (ℚ × ℚ) → ℚ → Option ℚ
  | [], _ => none
  | [p], _ => some p.2
  | p :: q :: rest, x =>
    if x ≤ q.1 then
      if q.1 - p.1 = 0 then none
      else some (p.2 + (q.2 - p.2) * (x - p.1) / (q.1 - p.1))
    else interpLin (q :: rest) x

/-- `OptionsAnalyzer.build_term_structure` (calculator.py lines 315-333)
applied to a query `dte`.  The knots are sorted by day (the `argsort` at
line 320); the returned `tspline` clamps below the first knot day to the
first IV and above the last knot day to the last IV, and linearly
interpolates in between.  `none` models an IEEE NaN result: the fallback
`lambda` of the `except` branch (line 333), taken exactly when
`interp1d` rejects the input (fewer than two knots or mismatched
lengths), and the NaN produced by `_call_linear` on a degenerate
segment (see `interpLin`).  `np.argsort` is unstable on tied days, so
the source's order among equal-day knots is unspecified; the embedding
fixes the stable insertion-sort order, and the theorems below use it
only on distinct-day inputs or on tied knots with equal IVs, where the
tie order is unobservable. -/
def build_term_structure (days ivs : List ℚ) (dte : ℚ) : Option ℚ :=
  if days.length = ivs.length then
    match List.insertionSort knotLE (days.zip ivs) with
    | k0 :: k1 :: rest =>
      if dte < k0.1 then some k0.2
      else if ((k1 :: rest).getLast (List.cons_ne_nil k1 rest)).1 < dte then
        some (((k1 :: rest).getLast (List.cons_ne_nil k1 rest)).2)
      else interpLin (k0 :: k1 :: rest) dte
    | _ => none
  else none

/-- Unfolding of `build_term_structure` once the sorted knot list is
known to have at least two elements. -/
theorem build_term_structure_eq (days ivs : List ℚ) (hlen : days.length = ivs.length)
    (k0 k1 : ℚ × ℚ) (rest : List (ℚ × ℚ))
    (hsort : List.insertionSort knotLE (days.zip ivs) = k0 :: k1 :: rest) (dte : ℚ) :
    build_term_structure days ivs dte =
      if dte < k0.1 then some k0.2
      else if ((k1 :: rest).getLast (List.cons_ne_nil k1 rest)).1 < dte then
        some (((k1 :: rest).getLast (List.cons_ne_nil k1 rest)).2)
      else interpLin (k0 :: k1 :: rest) dte := by
  rw [build_term_structure, if_pos hlen, hsort]

/-- Day-sorted knots with pairwise-distinct days are strictly sorted. -/
theorem knot_pairwise_lt (l : List (ℚ × ℚ)) (hs : l.Pairwise knotLE)
    (hn : (l.map Prod.fst).Nodup) : l.Pairwise (fun p q => p.1 < q.1) := by
  have hne : l.Pairwise (fun p q : ℚ × ℚ => p.1 ≠ q.1) := List.pairwise_map.mp hn
  exact (hs.and hne).imp fun h => lt_of_le_of_ne h.1 h.2

/-- Linear interpolation over strictly day-sorted knots is exact (and
defined) at every knot. -/
theorem interpLin_at_knot :
    ∀ l : List (ℚ × ℚ), l.Pairwise (fun p q => p.1 < q.1) → 2 ≤ l.length →
      ∀ p ∈ l, interpLin l p.1 = some p.2 := by
  intro l
  induction l with
  | nil => intro _ _ p hp; simp at hp
  | cons a tl ih =>
    intro hpw hlen p hp
    cases tl with
    | nil => simp at hlen
    | cons b rest =>
      obtain ⟨ha, hpw'⟩ := List.pairwise_cons.mp hpw
      rcases List.mem_cons.mp hp with rfl | hp2
      · have hne : ¬ (b.1 - p.1 = 0) :=
          sub_ne_zero.mpr (ne_of_gt (ha b (List.mem_cons_self b rest)))
        rw [interpLin, if_pos (le_of_lt (ha b (List.mem_cons_self b rest))), if_neg hne]
        rw [sub_self, mul_zero, zero_div, add_zero]
      · rcases List.mem_cons.mp hp2 with rfl | hp3
        · have hne : ¬ (p.1 - a.1 = 0) :=
            sub_ne_zero.mpr (ne_of_gt (ha p (List.mem_cons_self p rest)))
          rw [interpLin, if_pos (le_refl p.1), if_neg hne]
          rw [mul_div_assoc, div_self hne]
          exact congrArg some (by ring)
        · have hblt : b.1 < p.1 := (List.pairwise_cons.mp hpw').1 p hp3
          rw [interpLin, if_neg (not_le.mpr hblt)]
          have hlen2 : 2 ≤ (b :: rest).length := by
            cases rest with
            | nil => simp at hp3
            | cons c r2 => simp [List.length_cons]
          exact ih hpw' hlen2 p hp2

/-- In a strictly day-sorted list the head has the least day. -/
theorem head_le_mem {a : ℚ × ℚ} {tl : List (ℚ × ℚ)}
    (hpw : (a :: tl).Pairwise (fun p q : ℚ × ℚ => p.1 < q.1)) :
    ∀ p ∈ a :: tl, a.1 ≤ p.1 := by
  intro p hp
  rcases List.mem_cons.mp hp with rfl | hp2
  · exact le_refl _
  · exact le_of_lt ((List.pairwise_cons.mp hpw).1 p hp2)

/-- In a strictly day-sorted list the last element has the greatest day. -/
theorem mem_le_getLast :
    ∀ (l : List (ℚ × ℚ)) (h : l ≠ []), l.Pairwise (fun p q : ℚ × ℚ => p.1 < q.1) →
      ∀ p ∈ l, p.1 ≤ (l.getLast h).1 := by
  intro l
  induction l with
  | nil => intro h; exact absurd rfl h
  | cons a tl ih =>
    intro h hpw p hp
    cases tl with
    | nil =>
      have hpa : p = a := by simpa using hp
      subst hpa
      exact le_refl _
    | cons b rest =>
      rw [List.getLast_cons (List.cons_ne_nil b rest)]
      rcases List.mem_cons.mp hp with rfl | hp2
      · have hl : (b :: rest).getLast (List.cons_ne_nil b rest) ∈ b :: rest :=
          List.getLast_mem _
        exact le_of_lt ((List.pairwise_cons.mp hpw).1 _ hl)
      · exact ih (List.cons_ne_nil b rest) (List.pairwise_cons.mp hpw).2 p hp2

/-- In a strictly day-sorted list the day determines the knot. -/
theorem knot_fst_inj :
    ∀ l : List (ℚ × ℚ), l.Pairwise (fun p q : ℚ × ℚ => p.1 < q.1) →
      ∀ p ∈ l, ∀ q ∈ l, p.1 = q.1 → p = q := by
  intro l
  induction l with
  | nil => intro _ p hp; simp at hp
  | cons a tl ih =>
    intro hpw p hp q hq heq
    obtain ⟨ha, htl⟩ := List.pairwise_cons.mp hpw
    rcases List.mem_cons.mp hp with rfl | hp2
    · rcases List.mem_cons.mp hq with rfl | hq2
      · rfl
      · exact absurd heq (ne_of_lt (ha q hq2))
    · rcases List.mem_cons.mp hq with rfl | hq2
      · exact absurd heq.symm (ne_of_lt (ha p hp2))
      · exact ih htl p hp2 q hq2 heq

/-- C4 counterexample, both degenerate regions.  With a single knot,
`interp1d` rejects the input and `build_term_structure` returns the NaN
fallback, so querying at the (unique) knot day does not return that
knot's input IV.  And with two knots sharing the same day (both with IV
`1/2`, so the unspecified `argsort` tie order is unobservable),
`_call_linear` divides by the zero day-width and the query at that day
is NaN, again not the input IV. -/
theorem term_structure_degenerate_knots_undefined :
    build_term_structure [30] [1 / 2] 30 ≠ some (1 / 2) ∧
    build_term_structure [30, 30] [1 / 2, 1 / 2] 30 ≠ some (1 / 2) := by
  constructor
  · exact fun h => Option.noConfusion h
  · have hsort : List.insertionSort knotLE
        (([30, 30] : List ℚ).zip ([1 / 2, 1 / 2] : List ℚ)) =
        [((30 : ℚ), (1 / 2 : ℚ)), (30, 1 / 2)] := by
      show List.insertionSort knotLE [((30 : ℚ), (1 / 2 : ℚ)), (30, 1 / 2)] = _
      simp only [List.insertionSort, List.orderedInsert]
      split_ifs <;> rfl
    rw [build_term_structure_eq [30, 30] [1 / 2, 1 / 2] rfl (30, 1 / 2) (30, 1 / 2) []
      hsort 30]
    rw [if_neg (lt_irrefl (30 : ℚ)), List.getLast_singleton, if_neg (lt_irrefl (30 : ℚ))]
    rw [interpLin, if_pos (le_refl (30 : ℚ)), if_pos (sub_self (30 : ℚ))]
    simp

/-- C4 (amended): for at least two knots with pairwise-distinct days (and
equally many days and IVs), the function built by `build_term_structure`
returns the exact input IV at every knot day, clamps every query below
the least knot day to that knot's IV, and clamps every query above the
greatest knot day to that knot's IV — it never extrapolates beyond the
knot range.  Both restrictions are forced: with fewer than two knots
construction fails and every query is undefined, and with a duplicated
knot day the query at that day is NaN, as the two parts of
`term_structure_degenerate_knots_undefined` show. -/
theorem term_structure_clamps :
    ∀ days ivs : List ℚ, days.length = ivs.length → 2 ≤ days.length → days.Nodup →
      ∀ d v : ℚ, (d, v) ∈ days.zip ivs →
        build_term_structure days ivs d = some v ∧
        ((∀ q ∈ days, d ≤ q) → ∀ x, x < d → build_term_structure days ivs x = some v) ∧
        ((∀ q ∈ days, q ≤ d) → ∀ x, d < x → build_term_structure days ivs x = some v) := by
  intro days ivs hlen h2 hnodup d v hmem
  have hlenzip : (days.zip ivs).length = days.length := by
    rw [List.length_zip, hlen, min_self]
  have hperm : (List.insertionSort knotLE (days.zip ivs)).Perm (days.zip ivs) :=
    List.perm_insertionSort knotLE (days.zip ivs)
  have hsorted : (List.insertionSort knotLE (days.zip ivs)).Pairwise knotLE :=
    List.sorted_insertionSort knotLE (days.zip ivs)
  have hmapfst : (days.zip ivs).map Prod.fst = days :=
    List.map_fst_zip days ivs (le_of_eq hlen)
  have hnodupks : ((List.insertionSort knotLE (days.zip ivs)).map Prod.fst).Nodup := by
    have hp2 : ((List.insertionSort knotLE (days.zip ivs)).map Prod.fst).Perm days := by
      have hm := hperm.map Prod.fst
      rwa [hmapfst] at hm
    exact hp2.nodup_iff.mpr hnodup
  have hstrict : (List.insertionSort knotLE (days.zip ivs)).Pairwise
      (fun p q : ℚ × ℚ => p.1 < q.1) :=
    knot_pairwise_lt _ hsorted hnodupks
  have hkslen : 2 ≤ (List.insertionSort knotLE (days.zip ivs)).length := by
    rw [hperm.length_eq, hlenzip]
    exact h2
  have hmemks : (d, v) ∈ List.insertionSort knotLE (days.zip ivs) :=
    hperm.mem_iff.mpr hmem
  obtain ⟨k0, k1, rest, hshape⟩ : ∃ k0 k1 rest,
      List.insertionSort knotLE (days.zip ivs) = k0 :: k1 :: rest := by
    cases hc : List.insertionSort knotLE (days.zip ivs) with
    | nil => rw [hc] at hkslen; simp at hkslen
    | cons a tl =>
      cases htl : tl with
      | nil => rw [hc, htl] at hkslen; simp at hkslen
      | cons b r2 => exact ⟨a, b, r2, rfl⟩
  rw [hshape] at hstrict hkslen hmemks
  have hbuild : ∀ x, build_term_structure days ivs x =
      if x < k0.1 then some k0.2
      else if ((k1 :: rest).getLast (List.cons_ne_nil k1 rest)).1 < x then
        some (((k1 :: rest).getLast (List.cons_ne_nil k1 rest)).2)
      else interpLin (k0 :: k1 :: rest) x :=
    fun x => build_term_structure_eq days ivs hlen k0 k1 rest hshape x
  have hk0d : k0.1 ≤ d := head_le_mem hstrict (d, v) hmemks
  have hlast_eq : (k0 :: k1 :: rest).getLast (List.cons_ne_nil k0 (k1 :: rest)) =
      (k1 :: rest).getLast (List.cons_ne_nil k1 rest) :=
    List.getLast_cons (List.cons_ne_nil k1 rest)
  have hdlast : d ≤ ((k1 :: rest).getLast (List.cons_ne_nil k1 rest)).1 := by
    rw [← hlast_eq]
    exact mem_le_getLast (k0 :: k1 :: rest) (List.cons_ne_nil k0 (k1 :: rest))
      hstrict (d, v) hmemks
  have hdaymem : ∀ p : ℚ × ℚ, p ∈ k0 :: k1 :: rest → p.1 ∈ days := by
    intro p hp
    have hz : p ∈ days.zip ivs := by
      rw [← hshape] at hp
      exact hperm.mem_iff.mp hp
    have : p.1 ∈ (days.zip ivs).map Prod.fst := List.mem_map_of_mem Prod.fst hz
    rwa [hmapfst] at this
  refine ⟨?_, ?_, ?_⟩
  · rw [hbuild d, if_neg (not_lt.mpr hk0d), if_neg (not_lt.mpr hdlast)]
    exact interpLin_at_knot _ hstrict hkslen (d, v) hmemks
  · intro hmin x hx
    have hk0mem : k0 ∈ k0 :: k1 :: rest := List.mem_cons_self _ _
    have hdk0 : d ≤ k0.1 := hmin k0.1 (hdaymem k0 hk0mem)
    have hdv : (d, v) = k0 :=
      knot_fst_inj _ hstrict (d, v) hmemks k0 hk0mem (le_antisymm hdk0 hk0d)
    have hk0eq : k0.1 = d := by rw [← hdv]
    have hxk : x < k0.1 := by rw [hk0eq]; exact hx
    rw [hbuild x, if_pos hxk, ← hdv]
  · intro hmax x hx
    have hlmem : (k1 :: rest).getLast (List.cons_ne_nil k1 rest) ∈ k0 :: k1 :: rest := by
      rw [← hlast_eq]
      exact List.getLast_mem _
    have hld : ((k1 :: rest).getLast (List.cons_ne_nil k1 rest)).1 ≤ d :=
      hmax _ (hdaymem _ hlmem)
    have hdv : (d, v) = (k1 :: rest).getLast (List.cons_ne_nil k1 rest) :=
      knot_fst_inj _ hstrict (d, v) hmemks _ hlmem (le_antisymm hdlast hld)
    have hxk0 : ¬ x < k0.1 := by
      have : k0.1 ≤ d := hk0d
      exact not_lt.mpr (le_of_lt (lt_of_le_of_lt this hx))
    rw [hbuild x, if_neg hxk0, if_pos (by rw [← hdv]; exact hx)]
    rw [← hdv]

/-- Witness for `term_structure_clamps` on the two-knot term structure
`(10, 1/2), (60, 1/4)`: exact at the knot, clamped below and above. -/
theorem term_structure_clamps_witness :
    build_term_structure [10, 60] [1 / 2, 1 / 4] 10 = some (1 / 2) ∧
    build_term_structure [10, 60] [1 / 2, 1 / 4] 5 = some (1 / 2) ∧
    build_term_structure [10, 60] [1 / 2, 1 / 4] 100 = some (1 / 4) := by
  have h10 := term_structure_clamps [10, 60] [1 / 2, 1 / 4] rfl (by norm_num)
    (by norm_num) 10 (1 / 2) (by simp)
  have h60 := term_structure_clamps [10, 60] [1 / 2, 1 / 4] rfl (by norm_num)
    (by norm_num) 60 (1 / 4) (by simp)
  refine ⟨h10.1, h10.2.1 ?_ 5 (by norm_num), h60.2.2 ?_ 100 (by norm_num)⟩
  · intro q hq
    rcases List.mem_cons.mp hq with rfl | hq2
    · exact le_refl _
    · have : q = 60 := by simpa using hq2
      rw [this]
      norm_num
  · intro q hq
    rcases List.mem_cons.mp hq with rfl | hq2
    · norm_num
    · have : q = 60 := by simpa using hq2
      rw [this]

end EarningsCalc
